import Mathlib

/-!
Verification of the sw-assist provider gateway and conversation context
manager, as a shallow embedding of the Rust sources.

The embedded code:
* src/src/util.rs   — the token-estimate heuristic;
* src/src/session.rs — SessionRecord, the JSONL conversation store
  (append_record / load_session_history) and build_messages_with_truncation;
* src/src/llm.rs    — the retry wrapper with_retries, the credential
  resolution inside send_openai, the non-streaming response extraction
  and the SSE stream decoder of send_openai_stream.

Machine integers (i64 timestamps, u32 usage counters) are modelled as
Int / Nat: none of the embedded operations can overflow them. Strings
are modelled by Lean String / List Char, file contents by List Char,
and the external libraries (serde_json, reqwest) by explicit executable
definitions that mirror their documented behaviour on the data shapes
this program exchanges with them.
-/

namespace SwAssist

/-- Usage counters, from struct Usage in src/src/llm.rs (u32 as Nat). -/
structure Usage where
  prompt_tokens : Option Nat
  completion_tokens : Option Nat
  total_tokens : Option Nat
  deriving DecidableEq, Repr

/-- A chat message, from struct ChatMessage in src/src/llm.rs. -/
structure ChatMessage where
  role : String
  content : String
  deriving DecidableEq, Repr

/-- A conversation turn, from struct SessionRecord in src/src/session.rs. -/
structure SessionRecord where
  timestamp_ms : Int
  role : String
  content : String
  model : Option String
  usage : Option Usage
  deriving DecidableEq, Repr

/-- Token estimate from src/src/util.rs, estimate_tokens_for_text:
one token per four characters, rounded up ((chars + 3) / 4 on the
unicode-scalar count). -/
def estimate_tokens_for_text (text : String) : Nat :=
  (text.data.length + 3) / 4

/-- The truncation loop of build_messages_with_truncation
(src/src/session.rs lines 160-169): iterate over the combined message
list from newest to oldest; stop when adding a message would exceed the
budget and something is already kept; otherwise keep the message (push
to the back of kept) and add its cost to the running total. -/
def truncateRev (msgs : List ChatMessage) (total : Nat) (max_tokens : Nat)
    (kept : List ChatMessage) : List ChatMessage :=
  match msgs with
  | [] => kept
  | msg :: rest =>
    let t := estimate_tokens_for_text msg.content
    if total + t > max_tokens ∧ kept ≠ [] then kept
    else truncateRev rest (total + t) max_tokens (kept ++ [msg])

/-- History converted to chat messages in original order, mirroring the
first loop of build_messages_with_truncation (src/src/session.rs
lines 154-157). -/
def historyMessages (history : List SessionRecord) : List ChatMessage :=
  history.map (fun rec => { role := rec.role, content := rec.content })

/-- The new user message pushed by build_messages_with_truncation
(src/src/session.rs line 158). -/
def newUserMsg (t : String) : ChatMessage :=
  { role := "user", content := t }

/-- build_messages_with_truncation from src/src/session.rs lines 149-172:
convert history to messages, append the new user message, truncate from
the oldest side by token budget, return in chronological order. -/
def build_messages_with_truncation (history : List SessionRecord)
    (new_user_message : String) (max_tokens : Nat) : List ChatMessage :=
  (truncateRev
    (historyMessages history ++ [newUserMsg new_user_message]).reverse
    0 max_tokens []).reverse

/-- Total estimated token cost of a message list. -/
def sumTokens (msgs : List ChatMessage) : Nat :=
  (msgs.map (fun m => estimate_tokens_for_text m.content)).sum

/-- A non-streaming response, from struct LlmResponse in src/src/llm.rs. -/
structure LlmResponse where
  content : String
  usage : Option Usage
  deriving DecidableEq, Repr

/-- The retry loop of with_retries (src/src/llm.rs lines 242-262),
instrumented with an invocation count. The fallible asynchronous
operation is modelled by an oracle giving the outcome of each
invocation (indexed by the loop's attempt counter); backoff sleeps do
not affect the returned value and are elided. On failure with
attempt + 1 > maxRetries the last error is returned together with the
"request failed after retries" context annotation; otherwise the loop
retries with the incremented attempt counter. The second component of
the result is the number of times the operation was invoked. -/
def withRetriesFrom {E A : Type} (f : Nat → Except E A) (maxRetries attempt : Nat) :
    Except (String × E) A × Nat :=
  match f attempt with
  | .ok v => (.ok v, 1)
  | .error e =>
    if _h : attempt + 1 > maxRetries then
      (.error ("request failed after retries", e), 1)
    else
      let r := withRetriesFrom f maxRetries (attempt + 1)
      (r.1, r.2 + 1)
termination_by maxRetries - attempt
decreasing_by omega

/-- with_retries from src/src/llm.rs: the loop started with attempt = 0
and max_retries = 3. -/
def with_retries {E A : Type} (f : Nat → Except E A) : Except (String × E) A × Nat :=
  withRetriesFrom f 3 0

theorem withRetriesFrom_all_fail {E A : Type} (f : Nat → Except E A) (es : Nat → E)
    (hf : ∀ i, f i = .error (es i)) :
    ∀ (n maxRetries attempt : Nat), maxRetries - attempt = n → attempt ≤ maxRetries →
      withRetriesFrom f maxRetries attempt =
        (.error ("request failed after retries", es maxRetries), n + 1) := by
  intro n
  induction n with
  | zero =>
    intro maxRetries attempt hn hle
    have : attempt = maxRetries := by omega
    subst this
    rw [withRetriesFrom, hf attempt]
    simp
  | succ n ih =>
    intro maxRetries attempt hn hle
    rw [withRetriesFrom, hf attempt]
    have hlt : ¬ attempt + 1 > maxRetries := by omega
    simp only [dif_neg hlt]
    rw [ih maxRetries (attempt + 1) (by omega) (by omega)]

theorem withRetriesFrom_success {E A : Type} (g : Nat → Except E A) (v : A) :
    ∀ (j maxRetries attempt : Nat),
      (∀ i, attempt ≤ i → i < attempt + j → ∃ e, g i = .error e) →
      g (attempt + j) = .ok v → attempt + j ≤ maxRetries →
      withRetriesFrom g maxRetries attempt = (.ok v, j + 1) := by
  intro j
  induction j with
  | zero =>
    intro maxRetries attempt hfail hok hle
    rw [withRetriesFrom]
    rw [show attempt + 0 = attempt from rfl] at hok
    rw [hok]
  | succ j ih =>
    intro maxRetries attempt hfail hok hle
    obtain ⟨e, he⟩ := hfail attempt (le_refl _) (by omega)
    rw [withRetriesFrom, he]
    have hlt : ¬ attempt + 1 > maxRetries := by omega
    simp only [dif_neg hlt]
    rw [ih maxRetries (attempt + 1)
      (fun i h1 h2 => hfail i (by omega) (by omega))
      (by rw [show attempt + 1 + j = attempt + (j + 1) from by omega]; exact hok)
      (by omega)]

/-- Claim C2: an operation failing on every invocation is invoked
exactly 1 + max_retries = 4 times, after which the wrapper returns the
last error (the one from attempt index 3) wrapped with the "request
failed after retries" annotation; an operation whose first success is
at attempt index k (0-based, so invocation k + 1 ≤ 4) has that success
returned with exactly k + 1 invocations — the operation is not invoked
again after the success. -/
theorem c2_retry_bound {E A : Type} (f g : Nat → Except E A) (es : Nat → E)
    (v : A) (k : Nat)
    (hf : ∀ i, f i = .error (es i))
    (hg1 : ∀ i, i < k → ∃ e, g i = .error e)
    (hg2 : g k = .ok v) (hk : k ≤ 3) :
    with_retries f = (.error ("request failed after retries", es 3), 4) ∧
      with_retries g = (.ok v, k + 1) := by
  constructor
  · exact withRetriesFrom_all_fail f es hf 3 3 0 rfl (by omega)
  · exact withRetriesFrom_success g v k 3 0
      (fun i h1 h2 => hg1 i (by omega)) (by simpa using hg2) (by omega)

/-- Witness for C2: an always-failing operation returning its attempt
index as the error, and an operation succeeding on attempt index 2. -/
theorem c2_retry_witness :
    with_retries (fun i => (.error i : Except Nat Nat)) =
        (.error ("request failed after retries", 3), 4) ∧
      with_retries (fun i => if i = 2 then (.ok 7 : Except Nat Nat) else .error 0) =
        (.ok 7, 3) :=
  c2_retry_bound _ _ (fun i => i) 7 2 (fun _ => rfl)
    (fun i hi => ⟨0, if_neg (by omega)⟩) (if_pos rfl) (by omega)

/-- An HTTP response as the closure inside send_openai sees it: reqwest
send() returns Ok for every delivered response whatever its status code,
and Err only for network-level failures. -/
structure HttpResponse where
  status : Nat
  body : String
  deriving DecidableEq, Repr

/-- struct OpenAiChoiceMessage, src/src/llm.rs lines 110-112. -/
structure OpenAiChoiceMessage where
  content : String
  deriving DecidableEq, Repr

/-- struct OpenAiChoice, src/src/llm.rs lines 114-117: message is
optional. -/
structure OpenAiChoice where
  message : Option OpenAiChoiceMessage
  deriving DecidableEq, Repr

/-- struct OpenAiUsage, src/src/llm.rs lines 119-124. -/
structure OpenAiUsageJson where
  prompt_tokens : Option Nat
  completion_tokens : Option Nat
  total_tokens : Option Nat
  deriving DecidableEq, Repr

/-- struct OpenAiResponse, src/src/llm.rs lines 126-130. -/
structure OpenAiResponseJson where
  choices : List OpenAiChoice
  usage : Option OpenAiUsageJson
  deriving DecidableEq, Repr

/-- Content extraction of send_openai (src/src/llm.rs lines 150-155):
first choice's message content, defaulting to the empty string. -/
def extractContent (parsed : OpenAiResponseJson) : String :=
  ((parsed.choices.head?.bind (fun c => c.message)).map
    (fun m => m.content)).getD ""

/-- Usage extraction of send_openai (src/src/llm.rs lines 156-160). -/
def extractUsage (parsed : OpenAiResponseJson) : Option Usage :=
  parsed.usage.map (fun u =>
    { prompt_tokens := u.prompt_tokens,
      completion_tokens := u.completion_tokens,
      total_tokens := u.total_tokens })

/-- The non-streaming send path of send_openai after credential
resolution (src/src/llm.rs lines 138-161). The closure handed to
with_retries performs one HTTP POST and fails only on network errors;
its invocation outcomes are the oracle `attempts`. The response
returned by the retry loop is then checked: non-200 status becomes an
"openai error" failure; a 200 body is decoded by `parseBody`
(modelling res.json::<OpenAiResponse>(), none meaning malformed JSON)
and the content and usage are extracted. The second component is the
number of HTTP invocations performed. -/
def sendOpenAiCore (attempts : Nat → Except String HttpResponse)
    (parseBody : String → Option OpenAiResponseJson) :
    Except String LlmResponse × Nat :=
  match with_retries attempts with
  | (.error (ann, e), n) => (.error (ann ++ ": " ++ e), n)
  | (.ok res, n) =>
    if res.status ≠ 200 then
      (.error ("openai error " ++ toString res.status ++ ": " ++ res.body), n)
    else
      match parseBody res.body with
      | none => (.error "invalid response body", n)
      | some parsed =>
        (.ok { content := extractContent parsed, usage := extractUsage parsed }, n)

/-- Whitespace stripped by str::trim, restricted to the ASCII
whitespace that can occur in SSE framing. -/
def isWsChar (c : Char) : Bool :=
  c = ' ' || c = '\t' || c = '\n' || c = '\r'

/-- line.trim() of the SSE loop: strip whitespace from both ends. -/
def trimChars (l : List Char) : List Char :=
  ((l.dropWhile isWsChar).reverse.dropWhile isWsChar).reverse

/-- str::strip-the-marker: remove a literal from the front of a line,
none when the line does not start with it. -/
def dropLit : List Char → List Char → Option (List Char)
  | [], l => some l
  | _ :: _, [] => none
  | p :: ps, c :: cs => if c = p then dropLit ps cs else none

/-- Does the list start with the pattern? (str::starts-with). -/
def startsWithL : List Char → List Char → Bool
  | _, [] => true
  | [], _ :: _ => false
  | c :: cs, p :: ps => c = p && startsWithL cs ps

/-- str::find: index of the first occurrence of the pattern. On the
ASCII patterns used by the decoder, byte indices and character indices
coincide at every position the code slices at. -/
def findSubIdx (pat : List Char) : List Char → Option Nat
  | [] => if startsWithL [] pat then some 0 else none
  | c :: t =>
    if startsWithL (c :: t) pat then some 0
    else (findSubIdx pat t).map (fun i => i + 1)

/-- The per-line body of the SSE decoding loop in send_openai_stream
(src/src/llm.rs lines 218-234): trim the line; if it starts with
"data: " take the remainder; a "[DONE]" remainder yields nothing (the
loop merely continues); otherwise locate the "content" key with a
bounded string search, find the first quote after it and the next
quote, and yield the substring between them as one fragment. -/
def processLine (line : List Char) : Option (List Char) :=
  match dropLit ("data: ".data) (trimChars line) with
  | none => none
  | some data =>
    if data = "[DONE]".data then none
    else
      match findSubIdx ("\"content\":".data) data with
      | none => none
      | some idx =>
        let after := data.drop (idx + 10)
        match findSubIdx ['"'] after with
        | none => none
        | some start =>
          let after2 := after.drop (start + 1)
          match findSubIdx ['"'] after2 with
          | none => none
          | some e => some (after2.take e)

/-- The fragment sequence produced by the streaming decoder for a given
sequence of SSE lines. -/
def decodeLines (lines : List (List Char)) : List (List Char) :=
  lines.filterMap processLine

/-- Claim C6: on the synthetic stream of two content lines followed by
the end sentinel, the decoder yields exactly the fragments "Hel" and
"lo", in this order, and nothing more. -/
theorem c6_stream_decode :
    decodeLines ["data: \x7b\"content\":\"Hel\"\x7d".data,
      "data: \x7b\"content\":\"lo\"\x7d".data,
      "data: [DONE]".data] = ["Hel".data, "lo".data] := by
  decide

/-- Counterexample to claim C4: a content-bearing data line arriving
after the [DONE] sentinel still yields a fragment — the decoder does
not latch once the sentinel has been seen. -/
theorem c4_counterexample :
    decodeLines ["data: [DONE]".data,
      "data: \x7b\"content\":\"x\"\x7d".data] = ["x".data] := by
  decide

/-- Claim C4 amended: a data line whose payload is the [DONE] sentinel
itself yields no fragment, but it does not terminate fragment
production: the decoder treats the lines before and after it exactly as
it would without it. -/
theorem c4_done_inert (pre post : List (List Char)) :
    processLine ("data: [DONE]".data) = none ∧
      decodeLines (pre ++ "data: [DONE]".data :: post) =
        decodeLines pre ++ decodeLines post := by
  have h : processLine ("data: [DONE]".data) = none := by decide
  exact ⟨h, by simp [decodeLines, h]⟩

/-- Counterexample to claim C3: a backend that consistently delivers an
HTTP 400 response has the HTTP operation invoked exactly once — the
non-2xx response is not re-issued through the retry executor at all
(the claim would require 4 invocations) — and the failure surfaces
immediately. -/
theorem c3_counterexample :
    (sendOpenAiCore (fun _ => .ok { status := 400, body := "bad request" })
        (fun _ => none)).2 = 1 ∧
      (sendOpenAiCore (fun _ => .ok { status := 400, body := "bad request" })
        (fun _ => none)).2 ≠ 4 ∧
      (sendOpenAiCore (fun _ => .ok { status := 400, body := "bad request" })
        (fun _ => none)).1 = .error "openai error 400: bad request" := by
  have h : sendOpenAiCore (fun _ => .ok { status := 400, body := "bad request" })
      (fun _ => none) = (.error "openai error 400: bad request", 1) := by
    rw [sendOpenAiCore,
      show with_retries (fun _ => (.ok { status := 400, body := "bad request" } :
          Except String HttpResponse)) =
        (.ok { status := 400, body := "bad request" }, 0 + 1) from
      withRetriesFrom_success _ _ 0 3 0 (fun i h1 h2 => absurd h2 (by omega)) rfl
        (by omega)]
    rfl
  rw [h]
  exact ⟨rfl, by decide, rfl⟩

/-- Claim C3 amended: the two failure kinds are treated differently.
A persistent network failure is retried up to the bound: the operation
is invoked 4 times and the annotated last error surfaces. A delivered
non-2xx HTTP response is never re-issued: the operation is invoked
exactly once and the status failure surfaces immediately after the
retry loop. -/
theorem c3_non2xx_not_retried (f g : Nat → Except String HttpResponse)
    (net : Nat → String)
    (parseBody : String → Option OpenAiResponseJson)
    (resp : HttpResponse)
    (hf : ∀ i, f i = .error (net i))
    (hg : ∀ i, g i = .ok resp) (hst : resp.status ≠ 200) :
    sendOpenAiCore f parseBody =
        (.error ("request failed after retries: " ++ net 3), 4) ∧
      sendOpenAiCore g parseBody =
        (.error ("openai error " ++ toString resp.status ++ ": " ++ resp.body), 1) := by
  constructor
  · rw [sendOpenAiCore]
    rw [show with_retries f = (.error ("request failed after retries", net 3), 4) from
      withRetriesFrom_all_fail f net hf 3 3 0 rfl (by omega)]
    rfl
  · rw [sendOpenAiCore]
    rw [show with_retries g = (.ok resp, 0 + 1) from
      withRetriesFrom_success g resp 0 3 0 (fun i h1 h2 => absurd h2 (by omega))
        (hg 0) (by omega)]
    simp [if_pos hst]

/-- Witness for the amended C3: a persistent network error is invoked
4 times; a constant HTTP 400 response is invoked once. -/
theorem c3_amended_witness :
    sendOpenAiCore (fun _ => .error "connection refused") (fun _ => none) =
        (.error "request failed after retries: connection refused", 4) ∧
      sendOpenAiCore (fun _ => .ok { status := 400, body := "bad" }) (fun _ => none) =
        (.error "openai error 400: bad", 1) :=
  c3_non2xx_not_retried _ _ (fun _ => "connection refused") _
    { status := 400, body := "bad" } (fun _ => rfl) (fun _ => rfl) (by decide)

/-- The environment variables consulted by the credential resolution in
send_openai, as an explicit environment value (env::var(name).ok()). -/
structure EnvVars where
  groq_api_key : Option String
  lmstudio_api_key : Option String
  openai_api_key : Option String
  deriving DecidableEq, Repr

/-- str::contains: find().is_some(). -/
def containsSub (hay pat : List Char) : Bool :=
  (findSubIdx pat hay).isSome

/-- The key-selection step of send_openai (src/src/llm.rs lines 86-92):
a base containing api.groq.com takes GROQ_API_KEY (required); otherwise
a base containing 127.0.0.1 or localhost takes LMSTUDIO_API_KEY
(optional); any other base takes OPENAI_API_KEY (required). -/
def apiKeyAndRequire (base : String) (env : EnvVars) : Option String × Bool :=
  if containsSub base.data ("api.groq.com".data) then (env.groq_api_key, true)
  else if containsSub base.data ("127.0.0.1".data) ||
      containsSub base.data ("localhost".data) then
    (env.lmstudio_api_key, false)
  else (env.openai_api_key, true)

/-- The guard at src/src/llm.rs lines 93-95: a required but absent key
aborts the send with the missing-key error before any request is
issued; otherwise the (possibly absent) key is passed on to the
request builder. -/
def resolveCredential (base : String) (env : EnvVars) : Except String (Option String) :=
  let kr := apiKeyAndRequire base env
  if kr.2 = true ∧ kr.1 = none then .error ("missing API key for base " ++ base)
  else .ok kr.1

/-- Claim C8: credential resolution depends on the effective base URL.
A base matching the local-inference pattern (contains 127.0.0.1 or
localhost and not the groq host) resolves successfully with the
credential not required even when no environment variable is set. A
known cloud base whose provider variable is unset — a groq base with
GROQ_API_KEY absent, or a base matching neither pattern (such as the
default api.openai.com) with OPENAI_API_KEY absent — fails with the
missing-key error before any request is sent. -/
theorem c8_credential_by_endpoint (baseLocal baseGroq baseOther : String)
    (env : EnvVars)
    (hl1 : containsSub baseLocal.data ("api.groq.com".data) = false)
    (hl2 : containsSub baseLocal.data ("127.0.0.1".data) = true ∨
           containsSub baseLocal.data ("localhost".data) = true)
    (hlm : env.lmstudio_api_key = none)
    (hg : containsSub baseGroq.data ("api.groq.com".data) = true)
    (hgk : env.groq_api_key = none)
    (ho1 : containsSub baseOther.data ("api.groq.com".data) = false)
    (ho2 : containsSub baseOther.data ("127.0.0.1".data) = false)
    (ho3 : containsSub baseOther.data ("localhost".data) = false)
    (hok : env.openai_api_key = none) :
    ((apiKeyAndRequire baseLocal env).2 = false ∧
        resolveCredential baseLocal env = .ok none) ∧
      resolveCredential baseGroq env =
        .error ("missing API key for base " ++ baseGroq) ∧
      resolveCredential baseOther env =
        .error ("missing API key for base " ++ baseOther) := by
  have hloc : apiKeyAndRequire baseLocal env = (none, false) := by
    rw [apiKeyAndRequire, hl1]
    rcases hl2 with h | h
    · simp [h, hlm]
    · simp [h, hlm]
  refine ⟨⟨by rw [hloc], ?_⟩, ?_, ?_⟩
  · rw [resolveCredential, hloc]
    simp
  · rw [resolveCredential, apiKeyAndRequire, hg]
    simp [hgk]
  · rw [resolveCredential, apiKeyAndRequire, ho1, ho2, ho3]
    simp [hok]

/-- Witness for C8: the LM Studio loopback base, the groq cloud base
and the default openai base, with no environment variable set. -/
theorem c8_credential_witness :
    ((apiKeyAndRequire "http://127.0.0.1:1234/v1"
        { groq_api_key := none, lmstudio_api_key := none,
          openai_api_key := none }).2 = false ∧
      resolveCredential "http://127.0.0.1:1234/v1"
        { groq_api_key := none, lmstudio_api_key := none,
          openai_api_key := none } = .ok none) ∧
      resolveCredential "https://api.groq.com/openai/v1"
        { groq_api_key := none, lmstudio_api_key := none,
          openai_api_key := none } =
        .error ("missing API key for base " ++ "https://api.groq.com/openai/v1") ∧
      resolveCredential "https://api.openai.com/v1"
        { groq_api_key := none, lmstudio_api_key := none,
          openai_api_key := none } =
        .error ("missing API key for base " ++ "https://api.openai.com/v1") :=
  c8_credential_by_endpoint _ _ _ _ (by decide) (Or.inl (by decide)) rfl
    (by decide) rfl (by decide) (by decide) (by decide) rfl

/-- Claim C10: a delivered 200 response whose parsed body has an empty
choices array, or a first choice carrying no message field, makes the
non-streaming call succeed with empty content instead of failing. -/
theorem c10_empty_choices_empty_content
    (attempts : Nat → Except String HttpResponse)
    (parseBody : String → Option OpenAiResponseJson)
    (resp : HttpResponse) (parsed : OpenAiResponseJson)
    (h0 : attempts 0 = .ok resp) (hst : resp.status = 200)
    (hp : parseBody resp.body = some parsed)
    (hch : parsed.choices = [] ∨
      ∃ c, parsed.choices.head? = some c ∧ c.message = none) :
    (sendOpenAiCore attempts parseBody).1 =
      .ok { content := "", usage := extractUsage parsed } := by
  rw [sendOpenAiCore]
  rw [show with_retries attempts = (.ok resp, 0 + 1) from
    withRetriesFrom_success attempts resp 0 3 0
      (fun i h1 h2 => absurd h2 (by omega)) h0 (by omega)]
  have hst' : ¬ resp.status ≠ 200 := by omega
  simp only [if_neg hst', hp]
  have hce : extractContent parsed = "" := by
    rcases hch with hnil | ⟨c, hc, hm⟩
    · simp [extractContent, hnil]
    · simp [extractContent, hc, hm]
  rw [hce]

/-- Witness for C10: one delivered 200 response whose body parses to a
response with no choices. -/
theorem c10_witness :
    (sendOpenAiCore (fun _ => .ok { status := 200, body := "x" })
        (fun _ => some { choices := [], usage := none })).1 =
      .ok { content := "",
            usage := extractUsage { choices := [], usage := none } } :=
  c10_empty_choices_empty_content _ _ { status := 200, body := "x" }
    { choices := [], usage := none } rfl rfl rfl (Or.inl rfl)

theorem truncateRev_eq_take (msgs : List ChatMessage) (total max_tokens : Nat)
    (kept : List ChatMessage) :
    ∃ k, truncateRev msgs total max_tokens kept = kept ++ msgs.take k := by
  induction msgs generalizing total kept with
  | nil => exact ⟨0, by simp [truncateRev]⟩
  | cons msg rest ih =>
    rw [truncateRev]
    by_cases h : total + estimate_tokens_for_text msg.content > max_tokens ∧ kept ≠ []
    · exact ⟨0, by simp [h]⟩
    · obtain ⟨k, hk⟩ := ih (total + estimate_tokens_for_text msg.content) (kept ++ [msg])
      exact ⟨k + 1, by simp [h, hk]⟩

theorem truncateRev_budget (msgs : List ChatMessage) (total max_tokens : Nat)
    (kept : List ChatMessage) (htot : sumTokens kept = total)
    (hinv : 2 ≤ kept.length → total ≤ max_tokens) :
    2 ≤ (truncateRev msgs total max_tokens kept).length →
      sumTokens (truncateRev msgs total max_tokens kept) ≤ max_tokens := by
  induction msgs generalizing total kept with
  | nil =>
    intro hlen
    rw [truncateRev] at hlen ⊢
    exact htot ▸ hinv hlen
  | cons msg rest ih =>
    intro hlen
    rw [truncateRev] at hlen ⊢
    by_cases h : total + estimate_tokens_for_text msg.content > max_tokens ∧ kept ≠ []
    · simp only [if_pos h] at hlen ⊢
      exact htot ▸ hinv hlen
    · simp only [if_neg h] at hlen ⊢
      refine ih (total + estimate_tokens_for_text msg.content) (kept ++ [msg]) ?_ ?_ hlen
      · simp only [sumTokens] at htot ⊢
        simp [htot]
      · intro h2
        rcases not_and_or.mp h with hle | hk
        · omega
        · rw [not_ne_iff.mp hk] at h2
          simp at h2

theorem build_messages_shape (history : List SessionRecord)
    (new_text : String) (budget : Nat) :
    ∃ k, build_messages_with_truncation history new_text budget =
      ((historyMessages history).reverse.take k).reverse ++
        [newUserMsg new_text] := by
  unfold build_messages_with_truncation
  rw [List.reverse_append, List.reverse_singleton, List.singleton_append, truncateRev]
  rw [if_neg (by simp)]
  obtain ⟨k, hk⟩ := truncateRev_eq_take (historyMessages history).reverse
    (0 + estimate_tokens_for_text (newUserMsg new_text).content) budget
    ([] ++ [newUserMsg new_text])
  rw [hk]
  exact ⟨k, by simp⟩

/-- Claim C1: for every history, every new user text and every token
budget, build_messages_with_truncation returns a non-empty message list
whose last element is the new user message (role "user", content equal
to the new text), even when that message alone exceeds the budget. -/
theorem c1_newest_turn_always_kept (history : List SessionRecord)
    (new_text : String) (budget : Nat) :
    build_messages_with_truncation history new_text budget ≠ [] ∧
      (build_messages_with_truncation history new_text budget).getLast? =
        some (newUserMsg new_text) := by
  obtain ⟨k, hk⟩ := build_messages_shape history new_text budget
  rw [hk]
  constructor
  · simp
  · simp

/-- Claim C5: the returned message list is a contiguous chronologically
ordered suffix of history-as-messages followed by the new user message:
it equals that combined list with some number of oldest messages
dropped. -/
theorem c5_truncation_is_suffix (history : List SessionRecord)
    (new_text : String) (budget : Nat) :
    ∃ n, build_messages_with_truncation history new_text budget =
      (historyMessages history ++ [newUserMsg new_text]).drop n := by
  unfold build_messages_with_truncation
  obtain ⟨k, hk⟩ := truncateRev_eq_take
    (historyMessages history ++ [newUserMsg new_text]).reverse
    0 budget []
  rw [hk, List.nil_append, ← List.rtake_eq_reverse_take_reverse]
  exact ⟨(historyMessages history ++
    [newUserMsg new_text]).length - k, rfl⟩

/-- Claim C9: whenever build_messages_with_truncation returns two or
more messages, the total estimated token cost of the returned messages
is at most the budget; only a singleton result can exceed it. -/
theorem c9_budget_respected_when_multiple (history : List SessionRecord)
    (new_text : String) (budget : Nat)
    (h2 : 2 ≤ (build_messages_with_truncation history new_text budget).length) :
    sumTokens (build_messages_with_truncation history new_text budget) ≤ budget := by
  unfold build_messages_with_truncation at h2 ⊢
  rw [List.length_reverse] at h2
  have hsum : ∀ l : List ChatMessage, sumTokens l.reverse = sumTokens l := by
    intro l
    simp [sumTokens, List.sum_reverse]
  rw [hsum]
  exact truncateRev_budget _ 0 budget [] rfl (by omega) h2

/-- Witness for C9 at a concrete input: a one-record history and a small
message fit a budget of 10 with two messages returned. -/
theorem c9_budget_witness :
    sumTokens (build_messages_with_truncation
      [{ timestamp_ms := 0, role := "user", content := "hi",
         model := none, usage := none }] "yo" 10) ≤ 10 :=
  c9_budget_respected_when_multiple _ _ _ (by decide)

/-!
The conversation store (src/src/session.rs) serializes each appended
SessionRecord with serde_json::to_string and parses each line of the
file with serde_json::from_str when loading. The serializer and the
parser are modelled below as executable functions on character lists,
mirroring serde_json's documented canonical output format (struct
fields in declaration order, Option as null-or-value, strings with the
standard JSON escapes, lowercase \u00XX for other control characters)
and its parsing of exactly those shapes.
-/

/-- Decimal digit character (as emitted by serde_json's integer
formatting). -/
def digitChar : Nat → Char
  | 0 => '0' | 1 => '1' | 2 => '2' | 3 => '3' | 4 => '4'
  | 5 => '5' | 6 => '6' | 7 => '7' | 8 => '8' | _ => '9'

/-- Value of a decimal digit character. -/
def digitVal (c : Char) : Option Nat :=
  if c = '0' then some 0 else if c = '1' then some 1 else if c = '2' then some 2
  else if c = '3' then some 3 else if c = '4' then some 4 else if c = '5' then some 5
  else if c = '6' then some 6 else if c = '7' then some 7 else if c = '8' then some 8
  else if c = '9' then some 9 else none

/-- Little-endian decimal digits of n, with structural fuel (the fuel
is always instantiated with n itself, which bounds the digit count). -/
def natDigitsRevAux : Nat → Nat → List Char
  | 0, _ => []
  | _ + 1, 0 => []
  | n + 1, fuel + 1 => digitChar ((n + 1) % 10) :: natDigitsRevAux ((n + 1) / 10) fuel

/-- Decimal representation of a natural number. -/
def natToChars (n : Nat) : List Char :=
  if n = 0 then ['0'] else (natDigitsRevAux n n).reverse

/-- Decimal representation of a signed integer (i64 via itoa in
serde_json): minus sign followed by the magnitude. -/
def intToChars (i : Int) : List Char :=
  if i < 0 then '-' :: natToChars i.natAbs else natToChars i.natAbs

/-- Greedy decimal-digit consumption with an accumulator. -/
def parseDigits : List Char → Nat → Nat × List Char
  | [], acc => (acc, [])
  | c :: cs, acc =>
    match digitVal c with
    | some d => parseDigits cs (10 * acc + d)
    | none => (acc, c :: cs)

/-- Parse a non-empty run of decimal digits. -/
def parseNat : List Char → Option (Nat × List Char)
  | [] => none
  | c :: cs =>
    match digitVal c with
    | some d => some (parseDigits cs d)
    | none => none

/-- Parse an optionally negated decimal integer. -/
def parseInt (l : List Char) : Option (Int × List Char) :=
  match l with
  | [] => none
  | c :: cs =>
    if c = '-' then (parseNat cs).map (fun p => (-(p.1 : Int), p.2))
    else (parseNat (c :: cs)).map (fun p => ((p.1 : Int), p.2))

/-- The first character of the remainder is not a decimal digit, so a
greedy digit parse stops exactly there. -/
def headNotDigit : List Char → Prop
  | [] => True
  | c :: _ => digitVal c = none

theorem digitVal_digitChar (d : Nat) (hd : d < 10) :
    digitVal (digitChar d) = some d := by
  rcases d with _|_|_|_|_|_|_|_|_|_|d
  · decide
  · decide
  · decide
  · decide
  · decide
  · decide
  · decide
  · decide
  · decide
  · decide
  · omega

theorem parseDigits_append (ds : List Char) (hds : ∀ c ∈ ds, (digitVal c).isSome) :
    ∀ (rest : List Char), headNotDigit rest → ∀ acc,
      parseDigits (ds ++ rest) acc =
        (ds.foldl (fun a c => 10 * a + (digitVal c).getD 0) acc, rest) := by
  induction ds with
  | nil =>
    intro rest hrest acc
    match rest with
    | [] => rfl
    | c :: cs =>
      rw [List.nil_append, parseDigits, hrest]
      rfl
  | cons d ds ih =>
    intro rest hrest acc
    have hd : (digitVal d).isSome := hds d (List.mem_cons_self d ds)
    obtain ⟨v, hv⟩ := Option.isSome_iff_exists.mp hd
    rw [List.cons_append, parseDigits, hv]
    show parseDigits (ds ++ rest) (10 * acc + v) = _
    rw [ih (fun c hc => hds c (List.mem_cons_of_mem d hc)) rest hrest]
    simp [hv]

theorem natDigitsRevAux_digits :
    ∀ (fuel n : Nat), ∀ c ∈ natDigitsRevAux n fuel, (digitVal c).isSome := by
  intro fuel
  induction fuel with
  | zero =>
    intro n c hc
    match n with
    | 0 => simp [natDigitsRevAux] at hc
    | m + 1 => simp [natDigitsRevAux] at hc
  | succ fuel ih =>
    intro n c hc
    match n with
    | 0 => simp [natDigitsRevAux] at hc
    | m + 1 =>
      rw [natDigitsRevAux] at hc
      rcases List.mem_cons.mp hc with h | h
      · rw [h, digitVal_digitChar _ (by omega)]
        rfl
      · exact ih _ c h

theorem natDigitsRevAux_value :
    ∀ (fuel n : Nat), n ≤ fuel → ∀ acc,
      (natDigitsRevAux n fuel).reverse.foldl (fun a c => 10 * a + (digitVal c).getD 0) acc =
        acc * 10 ^ (natDigitsRevAux n fuel).length + n := by
  intro fuel
  induction fuel with
  | zero =>
    intro n hn acc
    have : n = 0 := by omega
    subst this
    simp [natDigitsRevAux]
  | succ fuel ih =>
    intro n hn acc
    match n with
    | 0 => simp [natDigitsRevAux]
    | m + 1 =>
      rw [natDigitsRevAux]
      have hdiv : (m + 1) / 10 ≤ fuel := by omega
      rw [List.reverse_cons, List.foldl_concat, ih _ hdiv acc]
      rw [digitVal_digitChar _ (by omega)]
      simp only [List.length_cons, Option.getD_some]
      rw [pow_succ]
      have := Nat.div_add_mod (m + 1) 10
      ring_nf
      omega

theorem natDigitsRevAux_ne_nil (n : Nat) (hn : 0 < n) :
    natDigitsRevAux n n ≠ [] := by
  match n, hn with
  | m + 1, _ => rw [natDigitsRevAux]; simp

theorem natToChars_digits (n : Nat) : ∀ c ∈ natToChars n, (digitVal c).isSome := by
  intro c hc
  rw [natToChars] at hc
  by_cases h : n = 0
  · rw [if_pos h] at hc
    simp at hc
    rw [hc]
    rfl
  · rw [if_neg h] at hc
    exact natDigitsRevAux_digits n n c (List.mem_reverse.mp hc)

theorem natToChars_ne_nil (n : Nat) : natToChars n ≠ [] := by
  rw [natToChars]
  by_cases h : n = 0
  · simp [h]
  · rw [if_neg h]
    intro hc
    exact natDigitsRevAux_ne_nil n (by omega) (by simpa using hc)

theorem parseNat_natToChars (n : Nat) (rest : List Char) (hrest : headNotDigit rest) :
    parseNat (natToChars n ++ rest) = some (n, rest) := by
  rw [natToChars]
  by_cases h : n = 0
  · rw [if_pos h]
    rw [show (['0'] : List Char) ++ rest = '0' :: rest from rfl, parseNat]
    rw [show digitVal '0' = some 0 from rfl]
    have hpd := parseDigits_append [] (by simp) rest hrest 0
    simp at hpd
    show some (parseDigits rest 0) = some (n, rest)
    rw [hpd, h]
  · rw [if_neg h]
    obtain ⟨d, ds, hds⟩ : ∃ d ds, (natDigitsRevAux n n).reverse = d :: ds := by
      have hne : (natDigitsRevAux n n).reverse ≠ [] := by
        intro hc
        exact natDigitsRevAux_ne_nil n (by omega) (by simpa using hc)
      match hx : (natDigitsRevAux n n).reverse with
      | [] => exact absurd hx hne
      | d :: ds => exact ⟨d, ds, rfl⟩
    have hall : ∀ c ∈ (natDigitsRevAux n n).reverse, (digitVal c).isSome := by
      intro c hc
      exact natDigitsRevAux_digits n n c (List.mem_reverse.mp hc)
    have hvald : (digitVal d).isSome := hall d (by rw [hds]; exact List.mem_cons_self d ds)
    obtain ⟨v, hv⟩ := Option.isSome_iff_exists.mp hvald
    rw [hds, List.cons_append, parseNat, hv]
    have hall' : ∀ c ∈ ds, (digitVal c).isSome := by
      intro c hc
      exact hall c (by rw [hds]; exact List.mem_cons_of_mem d hc)
    show some (parseDigits (ds ++ rest) v) = some (n, rest)
    rw [parseDigits_append ds hall' rest hrest v]
    have hval := natDigitsRevAux_value n n (le_refl n) 0
    rw [hds] at hval
    simp only [List.foldl_cons, Nat.zero_mul, Nat.zero_add, hv, Option.getD_some] at hval
    rw [show 10 * 0 + v = v from by omega] at hval
    rw [hval]

theorem natToChars_head_not_minus (n : Nat) :
    ∀ d ds, natToChars n = d :: ds → d ≠ '-' := by
  intro d ds hd hcontra
  have : (digitVal d).isSome := natToChars_digits n d (by rw [hd]; exact List.mem_cons_self d ds)
  rw [hcontra] at this
  exact absurd this (by decide)

theorem parseInt_intToChars (i : Int) (rest : List Char) (hrest : headNotDigit rest) :
    parseInt (intToChars i ++ rest) = some (i, rest) := by
  rw [intToChars]
  by_cases h : i < 0
  · rw [if_pos h, List.cons_append, parseInt, if_pos rfl]
    rw [parseNat_natToChars i.natAbs rest hrest]
    show some (-(i.natAbs : Int), rest) = some (i, rest)
    have : -(i.natAbs : Int) = i := by omega
    rw [this]
  · rw [if_neg h]
    obtain ⟨d, ds, hds⟩ : ∃ d ds, natToChars i.natAbs = d :: ds := by
      match hx : natToChars i.natAbs with
      | [] => exact absurd hx (natToChars_ne_nil _)
      | d :: ds => exact ⟨d, ds, rfl⟩
    rw [hds, List.cons_append, parseInt, if_neg (natToChars_head_not_minus _ _ _ hds)]
    rw [← List.cons_append, ← hds, parseNat_natToChars i.natAbs rest hrest]
    show some ((i.natAbs : Int), rest) = some (i, rest)
    have : (i.natAbs : Int) = i := by omega
    rw [this]

/-- Lowercase hexadecimal digit character (serde_json's \u00XX output
uses lowercase hex). -/
def hexDigitChar : Nat → Char
  | 0 => '0' | 1 => '1' | 2 => '2' | 3 => '3' | 4 => '4' | 5 => '5' | 6 => '6'
  | 7 => '7' | 8 => '8' | 9 => '9' | 10 => 'a' | 11 => 'b' | 12 => 'c' | 13 => 'd'
  | 14 => 'e' | _ => 'f'

/-- Value of a lowercase hexadecimal digit character. -/
def hexVal (c : Char) : Option Nat :=
  match digitVal c with
  | some d => some d
  | none =>
    if c = 'a' then some 10 else if c = 'b' then some 11 else if c = 'c' then some 12
    else if c = 'd' then some 13 else if c = 'e' then some 14 else if c = 'f' then some 15
    else none

/-- serde_json's escaping of one character inside a JSON string: the
two-character escapes for quote, backslash and the common control
characters, \u00XX for the remaining control characters, and everything
else (all characters of code point 32 and above) written as-is. -/
def escapeChar (c : Char) : List Char :=
  if c = '"' then ['\\', '"']
  else if c = '\\' then ['\\', '\\']
  else if c = '\x08' then ['\\', 'b']
  else if c = '\t' then ['\\', 't']
  else if c = '\n' then ['\\', 'n']
  else if c = '\x0c' then ['\\', 'f']
  else if c = '\r' then ['\\', 'r']
  else if c.toNat < 32 then
    ['\\', 'u', '0', '0', hexDigitChar (c.toNat / 16), hexDigitChar (c.toNat % 16)]
  else [c]

/-- Escape every character of a string body. -/
def escapeList : List Char → List Char
  | [] => []
  | c :: cs => escapeChar c ++ escapeList cs

/-- The character denoted by a single-character JSON escape. -/
def simpleUnescape (e : Char) : Option Char :=
  if e = '"' then some '"'
  else if e = '\\' then some '\\'
  else if e = '/' then some '/'
  else if e = 'b' then some '\x08'
  else if e = 'f' then some '\x0c'
  else if e = 'n' then some '\n'
  else if e = 'r' then some '\r'
  else if e = 't' then some '\t'
  else none

/-- Parse the body of a JSON string up to its closing quote, undoing
the escapes; returns the decoded characters and the input after the
closing quote. -/
def parseStringBody : List Char → Option (List Char × List Char)
  | [] => none
  | c :: cs =>
    if c = '"' then some ([], cs)
    else if c = '\\' then
      match cs with
      | [] => none
      | e :: cs2 =>
        if e = 'u' then
          match cs2 with
          | h1 :: h2 :: h3 :: h4 :: cs3 =>
            match hexVal h1, hexVal h2, hexVal h3, hexVal h4 with
            | some a, some b, some x, some d =>
              match parseStringBody cs3 with
              | some (s, r) => some (Char.ofNat (((a * 16 + b) * 16 + x) * 16 + d) :: s, r)
              | none => none
            | _, _, _, _ => none
          | _ => none
        else
          match simpleUnescape e with
          | some d =>
            match parseStringBody cs2 with
            | some (s, r) => some (d :: s, r)
            | none => none
          | none => none
    else
      match parseStringBody cs with
      | some (s, r) => some (c :: s, r)
      | none => none

theorem hexVal_hexDigitChar (d : Nat) (hd : d < 16) :
    hexVal (hexDigitChar d) = some d := by
  rcases d with _|_|_|_|_|_|_|_|_|_|_|_|_|_|_|_|d
  · decide
  · decide
  · decide
  · decide
  · decide
  · decide
  · decide
  · decide
  · decide
  · decide
  · decide
  · decide
  · decide
  · decide
  · decide
  · decide
  · omega

theorem parseStringBody_escape (s : List Char) :
    ∀ rest, parseStringBody (escapeList s ++ ('"' :: rest)) = some (s, rest) := by
  induction s with
  | nil =>
    intro rest
    rw [escapeList, List.nil_append, parseStringBody.eq_def]
    simp
  | cons c cs ih =>
    intro rest
    rw [escapeList, List.append_assoc]
    by_cases h1 : c = '"'
    · subst h1
      simp only [escapeChar, reduceIte, List.cons_append, List.nil_append]
      rw [parseStringBody.eq_def]
      simp [simpleUnescape, ih rest]
    by_cases h2 : c = '\\'
    · subst h2
      simp only [escapeChar, reduceIte, List.cons_append, List.nil_append]
      rw [parseStringBody.eq_def]
      simp [simpleUnescape, ih rest]
    by_cases h3 : c = '\x08'
    · subst h3
      simp only [escapeChar, reduceIte, List.cons_append, List.nil_append]
      rw [parseStringBody.eq_def]
      simp [simpleUnescape, ih rest]
    by_cases h4 : c = '\t'
    · subst h4
      simp only [escapeChar, reduceIte, List.cons_append, List.nil_append]
      rw [parseStringBody.eq_def]
      simp [simpleUnescape, ih rest]
    by_cases h5 : c = '\n'
    · subst h5
      simp only [escapeChar, reduceIte, List.cons_append, List.nil_append]
      rw [parseStringBody.eq_def]
      simp [simpleUnescape, ih rest]
    by_cases h6 : c = '\x0c'
    · subst h6
      simp only [escapeChar, reduceIte, List.cons_append, List.nil_append]
      rw [parseStringBody.eq_def]
      simp [simpleUnescape, ih rest]
    by_cases h7 : c = '\r'
    · subst h7
      simp only [escapeChar, reduceIte, List.cons_append, List.nil_append]
      rw [parseStringBody.eq_def]
      simp [simpleUnescape, ih rest]
    by_cases h8 : c.toNat < 32
    · rw [escapeChar, if_neg h1, if_neg h2, if_neg h3, if_neg h4, if_neg h5,
        if_neg h6, if_neg h7, if_pos h8]
      rw [show ((['\\', 'u', '0', '0', hexDigitChar (c.toNat / 16),
          hexDigitChar (c.toNat % 16)] : List Char) ++
            (escapeList cs ++ '"' :: rest)) =
          '\\' :: 'u' :: '0' :: '0' :: hexDigitChar (c.toNat / 16) ::
            hexDigitChar (c.toNat % 16) :: (escapeList cs ++ '"' :: rest) from rfl]
      rw [parseStringBody]
      rw [if_neg (by decide), if_pos rfl, if_pos rfl]
      rw [show hexVal '0' = some 0 from rfl]
      rw [hexVal_hexDigitChar (c.toNat / 16) (by omega)]
      rw [hexVal_hexDigitChar (c.toNat % 16) (by omega)]
      rw [ih rest]
      have hval : ((0 * 16 + 0) * 16 + c.toNat / 16) * 16 + c.toNat % 16 = c.toNat := by
        omega
      show some (Char.ofNat (((0 * 16 + 0) * 16 + c.toNat / 16) * 16 + c.toNat % 16) :: cs,
        rest) = some (c :: cs, rest)
      rw [hval, Char.ofNat_toNat]
    · rw [escapeChar, if_neg h1, if_neg h2, if_neg h3, if_neg h4, if_neg h5,
        if_neg h6, if_neg h7, if_neg h8]
      rw [List.singleton_append, parseStringBody.eq_def]
      simp [h1, h2, ih rest]

/-- A quoted JSON string: opening quote, escaped body, closing quote. -/
def quoteStr (s : String) : List Char :=
  '"' :: (escapeList s.data ++ ['"'])

/-- Parse a quoted JSON string. -/
def parseQuoted (l : List Char) : Option (String × List Char) :=
  match l with
  | [] => none
  | c :: cs =>
    if c = '"' then (parseStringBody cs).map (fun p => (String.mk p.1, p.2)) else none

/-- The JSON null literal. -/
def nullChars : List Char := ['n', 'u', 'l', 'l']

/-- serde_json encoding of Option of u32: null or the number. -/
def encodeOptNat : Option Nat → List Char
  | none => nullChars
  | some n => natToChars n

/-- serde_json encoding of Option of String: null or the quoted string. -/
def encodeOptStr : Option String → List Char
  | none => nullChars
  | some s => quoteStr s

/-- Parse null-or-number. -/
def parseOptNat (l : List Char) : Option (Option Nat × List Char) :=
  match dropLit nullChars l with
  | some r => some (none, r)
  | none => (parseNat l).map (fun p => (some p.1, p.2))

/-- Parse null-or-string. -/
def parseOptStr (l : List Char) : Option (Option String × List Char) :=
  match l with
  | [] => none
  | c :: cs =>
    if c = '"' then (parseStringBody cs).map (fun p => (some (String.mk p.1), p.2))
    else (dropLit nullChars (c :: cs)).map (fun r => ((none : Option String), r))

/-- A JSON object key: quoted name followed by a colon. -/
def keyChars (k : String) : List Char :=
  '"' :: (k.data ++ ['"', ':'])

/-- serde_json::to_string of a Usage value (fields in declaration
order). -/
def encodeUsage (u : Usage) : List Char :=
  '{' :: (keyChars "prompt_tokens" ++ encodeOptNat u.prompt_tokens ++
    (',' :: (keyChars "completion_tokens" ++ encodeOptNat u.completion_tokens ++
      (',' :: (keyChars "total_tokens" ++ encodeOptNat u.total_tokens ++ ['}'])))))

/-- serde_json encoding of Option of Usage: null or the object. -/
def encodeOptUsage : Option Usage → List Char
  | none => nullChars
  | some u => encodeUsage u

/-- Parse a Usage object. -/
def parseUsage (l : List Char) : Option (Usage × List Char) :=
  match dropLit ('{' :: keyChars "prompt_tokens") l with
  | none => none
  | some l1 =>
    match parseOptNat l1 with
    | none => none
    | some (p, l2) =>
      match dropLit (',' :: keyChars "completion_tokens") l2 with
      | none => none
      | some l3 =>
        match parseOptNat l3 with
        | none => none
        | some (q, l4) =>
          match dropLit (',' :: keyChars "total_tokens") l4 with
          | none => none
          | some l5 =>
            match parseOptNat l5 with
            | none => none
            | some (t, l6) =>
              match dropLit ['}'] l6 with
              | none => none
              | some l7 => some (Usage.mk p q t, l7)

/-- Parse null-or-Usage. -/
def parseOptUsage (l : List Char) : Option (Option Usage × List Char) :=
  match l with
  | [] => none
  | c :: cs =>
    if c = '{' then (parseUsage (c :: cs)).map (fun p => (some p.1, p.2))
    else (dropLit nullChars (c :: cs)).map (fun r => ((none : Option Usage), r))

/-- serde_json::to_string of a SessionRecord, one JSON object with the
five fields in declaration order. -/
def encodeRecord (r : SessionRecord) : List Char :=
  '{' :: (keyChars "timestamp_ms" ++ intToChars r.timestamp_ms ++
    (',' :: (keyChars "role" ++ quoteStr r.role ++
      (',' :: (keyChars "content" ++ quoteStr r.content ++
        (',' :: (keyChars "model" ++ encodeOptStr r.model ++
          (',' :: (keyChars "usage" ++ encodeOptUsage r.usage ++ ['}'])))))))))

/-- serde_json::from_str of a SessionRecord on the canonical line
shape, requiring the whole line to be consumed. -/
def decodeRecord (l : List Char) : Option SessionRecord :=
  match dropLit ('{' :: keyChars "timestamp_ms") l with
  | none => none
  | some l1 =>
    match parseInt l1 with
    | none => none
    | some (ts, l2) =>
      match dropLit (',' :: keyChars "role") l2 with
      | none => none
      | some l3 =>
        match parseQuoted l3 with
        | none => none
        | some (ro, l4) =>
          match dropLit (',' :: keyChars "content") l4 with
          | none => none
          | some l5 =>
            match parseQuoted l5 with
            | none => none
            | some (co, l6) =>
              match dropLit (',' :: keyChars "model") l6 with
              | none => none
              | some (l7) =>
                match parseOptStr l7 with
                | none => none
                | some (mo, l8) =>
                  match dropLit (',' :: keyChars "usage") l8 with
                  | none => none
                  | some l9 =>
                    match parseOptUsage l9 with
                    | none => none
                    | some (us, l10) =>
                      match dropLit ['}'] l10 with
                      | none => none
                      | some l11 =>
                        if l11 = [] then
                          some (SessionRecord.mk ts ro co mo us)
                        else none

theorem dropLit_append (p l : List Char) : dropLit p (p ++ l) = some l := by
  induction p with
  | nil => rfl
  | cons c cs ih => rw [List.cons_append, dropLit, if_pos rfl, ih]

theorem dropLit_cons_append (c : Char) (p l : List Char) :
    dropLit (c :: p) (c :: (p ++ l)) = some l := by
  rw [dropLit, if_pos rfl, dropLit_append]

theorem dropLit_single (c : Char) (l : List Char) :
    dropLit [c] (c :: l) = some l := by
  rw [dropLit, if_pos rfl]
  rfl

theorem parseQuoted_quoteStr (s : String) (rest : List Char) :
    parseQuoted (quoteStr s ++ rest) = some (s, rest) := by
  rw [quoteStr, List.cons_append, parseQuoted, if_pos rfl]
  rw [List.append_assoc, List.singleton_append]
  rw [parseStringBody_escape s.data rest]
  show some (String.mk s.data, rest) = some (s, rest)
  rw [show String.mk s.data = s from by cases s; rfl]

theorem natToChars_shape (n : Nat) : ∃ d ds, natToChars n = d :: ds := by
  match hx : natToChars n with
  | [] => exact absurd hx (natToChars_ne_nil n)
  | d :: ds => exact ⟨d, ds, rfl⟩

theorem dropLit_null_natToChars (n : Nat) (rest : List Char) :
    dropLit nullChars (natToChars n ++ rest) = none := by
  obtain ⟨d, ds, hds⟩ := natToChars_shape n
  have hd : (digitVal d).isSome :=
    natToChars_digits n d (by rw [hds]; exact List.mem_cons_self d ds)
  have hdn : d ≠ 'n' := by
    intro he
    rw [he] at hd
    exact absurd hd (by decide)
  rw [hds, List.cons_append, show nullChars = 'n' :: ['u', 'l', 'l'] from rfl]
  rw [dropLit, if_neg hdn]

theorem parseOptNat_encode (o : Option Nat) (rest : List Char)
    (hrest : headNotDigit rest) :
    parseOptNat (encodeOptNat o ++ rest) = some (o, rest) := by
  match o with
  | none =>
    rw [encodeOptNat, parseOptNat, dropLit_append]
  | some n =>
    rw [encodeOptNat, parseOptNat, dropLit_null_natToChars]
    rw [parseNat_natToChars n rest hrest]
    rfl

theorem parseOptStr_encode (o : Option String) (rest : List Char) :
    parseOptStr (encodeOptStr o ++ rest) = some (o, rest) := by
  match o with
  | none =>
    rw [encodeOptStr,
      show nullChars ++ rest = 'n' :: ('u' :: 'l' :: 'l' :: rest) from rfl,
      parseOptStr, if_neg (by decide)]
    rw [show ('n' :: ('u' :: 'l' :: 'l' :: rest) : List Char) =
      nullChars ++ rest from rfl, dropLit_append]
    rfl
  | some s =>
    rw [encodeOptStr, quoteStr, List.cons_append, parseOptStr, if_pos rfl]
    rw [List.append_assoc, List.singleton_append]
    rw [parseStringBody_escape s.data rest]
    show some (some (String.mk s.data), rest) = some (some s, rest)
    rw [show String.mk s.data = s from by cases s; rfl]

theorem headNotDigit_comma (k : List Char) : headNotDigit (',' :: k) := by
  show digitVal ',' = none
  decide

theorem headNotDigit_rbrace (k : List Char) : headNotDigit ('}' :: k) := by
  show digitVal '}' = none
  decide

theorem parseOptNat_encode_comma (o : Option Nat) (k : List Char) :
    parseOptNat (encodeOptNat o ++ ',' :: k) = some (o, ',' :: k) :=
  parseOptNat_encode o (',' :: k) (headNotDigit_comma k)

theorem parseOptNat_encode_rbrace (o : Option Nat) (k : List Char) :
    parseOptNat (encodeOptNat o ++ '}' :: k) = some (o, '}' :: k) :=
  parseOptNat_encode o ('}' :: k) (headNotDigit_rbrace k)

theorem parseInt_intToChars_comma (i : Int) (k : List Char) :
    parseInt (intToChars i ++ ',' :: k) = some (i, ',' :: k) :=
  parseInt_intToChars i (',' :: k) (headNotDigit_comma k)

theorem parseUsage_encode (u : Usage) (rest : List Char) :
    parseUsage (encodeUsage u ++ rest) = some (u, rest) := by
  have h : encodeUsage u ++ rest =
      '{' :: (keyChars "prompt_tokens" ++ (encodeOptNat u.prompt_tokens ++
        (',' :: (keyChars "completion_tokens" ++ (encodeOptNat u.completion_tokens ++
          (',' :: (keyChars "total_tokens" ++ (encodeOptNat u.total_tokens ++
            ('}' :: rest))))))))) := by
    simp [encodeUsage]
  rw [parseUsage, h]
  simp only [dropLit_cons_append, dropLit_single, parseOptNat_encode_comma,
    parseOptNat_encode_rbrace]

theorem parseOptUsage_encode (o : Option Usage) (rest : List Char) :
    parseOptUsage (encodeOptUsage o ++ rest) = some (o, rest) := by
  match o with
  | none =>
    rw [encodeOptUsage,
      show nullChars ++ rest = 'n' :: ('u' :: 'l' :: 'l' :: rest) from rfl,
      parseOptUsage, if_neg (by decide)]
    rw [show ('n' :: ('u' :: 'l' :: 'l' :: rest) : List Char) =
      nullChars ++ rest from rfl, dropLit_append]
    rfl
  | some u =>
    rw [encodeOptUsage,
      show encodeUsage u ++ rest =
        '{' :: ((keyChars "prompt_tokens" ++ encodeOptNat u.prompt_tokens ++
          (',' :: (keyChars "completion_tokens" ++ encodeOptNat u.completion_tokens ++
            (',' :: (keyChars "total_tokens" ++ encodeOptNat u.total_tokens ++
              ['}']))))) ++ rest) from by simp [encodeUsage]]
    rw [parseOptUsage, if_pos rfl]
    rw [show ('{' :: ((keyChars "prompt_tokens" ++ encodeOptNat u.prompt_tokens ++
        (',' :: (keyChars "completion_tokens" ++ encodeOptNat u.completion_tokens ++
          (',' :: (keyChars "total_tokens" ++ encodeOptNat u.total_tokens ++
            ['}']))))) ++ rest) : List Char) = encodeUsage u ++ rest from by
      simp [encodeUsage]]
    rw [parseUsage_encode u rest]
    rfl

theorem decodeRecord_encodeRecord (r : SessionRecord) :
    decodeRecord (encodeRecord r) = some r := by
  have h : encodeRecord r =
      '{' :: (keyChars "timestamp_ms" ++ (intToChars r.timestamp_ms ++
        (',' :: (keyChars "role" ++ (quoteStr r.role ++
          (',' :: (keyChars "content" ++ (quoteStr r.content ++
            (',' :: (keyChars "model" ++ (encodeOptStr r.model ++
              (',' :: (keyChars "usage" ++ (encodeOptUsage r.usage ++
                ('}' :: []))))))))))))))) := by
    simp [encodeRecord]
  rw [decodeRecord, h]
  simp only [dropLit_cons_append, dropLit_single, parseQuoted_quoteStr,
    parseOptStr_encode, parseOptUsage_encode, parseInt_intToChars_comma,
    reduceIte]

/-- str::lines with an accumulator of the current line's characters in
reverse: each newline emits the accumulated line; text after the last
newline forms a final line only when non-empty. -/
def rustLinesAux : List Char → List Char → List (List Char)
  | [], acc => if acc = [] then [] else [acc.reverse]
  | c :: cs, acc =>
    if c = '\n' then acc.reverse :: rustLinesAux cs []
    else rustLinesAux cs (c :: acc)

/-- str::lines strips one trailing carriage return per line
(\r\n framing). -/
def stripTrailCR (l : List Char) : List Char :=
  if l.getLast? = some '\r' then l.dropLast else l

/-- str::lines of a file content. -/
def rustLines (content : List Char) : List (List Char) :=
  (rustLinesAux content []).map stripTrailCR

/-- The on-disk conversation store: for each conversation name the
content of its sessions/name.jsonl file, none when the file does not
exist. -/
def Store := String → Option (List Char)

/-- append_record from src/src/session.rs lines 78-86: create the file
if missing (missing file behaves as empty content), then append the
serde_json::to_string serialization of the record and a newline. -/
def append_record (st : Store) (name : String) (r : SessionRecord) : Store :=
  fun n =>
    if n = name then some (((st name).getD []) ++ (encodeRecord r ++ ['\n']))
    else st n

/-- load_session_history from src/src/session.rs lines 125-138: a
missing file is an empty history; otherwise split the content in lines
and parse each line, skipping lines that trim to empty and lines that
fail to parse. -/
def load_session_history (st : Store) (name : String) : List SessionRecord :=
  match st name with
  | none => []
  | some content =>
    (rustLines content).filterMap (fun line =>
      if trimChars line = [] then none else decodeRecord line)

/-- Well-formedness of a stored file content: absent, empty, or ending
with a newline — exactly the states produced by the append path, which
always terminates what it writes with a newline. -/
def contentOk : Option (List Char) → Prop
  | none => True
  | some c => c = [] ∨ c.getLast? = some '\n'

theorem digitVal_printable (c : Char) (h : (digitVal c).isSome) : 32 ≤ c.toNat := by
  rw [digitVal] at h
  split_ifs at h with h1 h2 h3 h4 h5 h6 h7 h8 h9 h10 <;>
    first
      | (subst_vars; decide)
      | exact absurd h (by decide)

theorem hexDigitChar_printable (d : Nat) : 32 ≤ (hexDigitChar d).toNat := by
  rcases d with _|_|_|_|_|_|_|_|_|_|_|_|_|_|_|d <;>
    first
      | decide
      | (show (32 : Nat) ≤ ('f' : Char).toNat
         decide)

theorem natToChars_printable (n : Nat) : ∀ a ∈ natToChars n, 32 ≤ a.toNat :=
  fun a ha => digitVal_printable a (natToChars_digits n a ha)

theorem intToChars_printable (i : Int) : ∀ a ∈ intToChars i, 32 ≤ a.toNat := by
  intro a ha
  rw [intToChars] at ha
  by_cases h : i < 0
  · rw [if_pos h] at ha
    rcases List.mem_cons.mp ha with rfl | ha
    · decide
    · exact natToChars_printable _ a ha
  · rw [if_neg h] at ha
    exact natToChars_printable _ a ha

theorem escapeChar_printable (c : Char) : ∀ a ∈ escapeChar c, 32 ≤ a.toNat := by
  intro a ha
  rw [escapeChar] at ha
  split_ifs at ha with h1 h2 h3 h4 h5 h6 h7 h8
  · rcases List.mem_cons.mp ha with rfl | ha
    · decide
    · simp at ha
      subst ha
      decide
  · rcases List.mem_cons.mp ha with rfl | ha
    · decide
    · simp at ha
      subst ha
      decide
  · rcases List.mem_cons.mp ha with rfl | ha
    · decide
    · simp at ha
      subst ha
      decide
  · rcases List.mem_cons.mp ha with rfl | ha
    · decide
    · simp at ha
      subst ha
      decide
  · rcases List.mem_cons.mp ha with rfl | ha
    · decide
    · simp at ha
      subst ha
      decide
  · rcases List.mem_cons.mp ha with rfl | ha
    · decide
    · simp at ha
      subst ha
      decide
  · rcases List.mem_cons.mp ha with rfl | ha
    · decide
    · simp at ha
      subst ha
      decide
  · simp only [List.mem_cons, List.not_mem_nil, or_false] at ha
    rcases ha with rfl | rfl | rfl | rfl | rfl | rfl
    · decide
    · decide
    · decide
    · decide
    · exact hexDigitChar_printable _
    · exact hexDigitChar_printable _
  · simp at ha
    subst ha
    omega

theorem escapeList_printable (s : List Char) : ∀ a ∈ escapeList s, 32 ≤ a.toNat := by
  induction s with
  | nil => intro a ha; simp [escapeList] at ha
  | cons c cs ih =>
    intro a ha
    rw [escapeList] at ha
    rcases List.mem_append.mp ha with h | h
    · exact escapeChar_printable c a h
    · exact ih a h

theorem quoteStr_printable (s : String) : ∀ a ∈ quoteStr s, 32 ≤ a.toNat := by
  intro a ha
  rw [quoteStr] at ha
  rcases List.mem_cons.mp ha with rfl | ha
  · decide
  · rcases List.mem_append.mp ha with h | h
    · exact escapeList_printable _ a h
    · simp at h
      subst h
      decide

theorem encodeOptNat_printable (o : Option Nat) : ∀ a ∈ encodeOptNat o, 32 ≤ a.toNat := by
  intro a ha
  match o with
  | none =>
    rw [encodeOptNat] at ha
    fin_cases ha <;> decide
  | some n => exact natToChars_printable n a ha

theorem encodeOptStr_printable (o : Option String) : ∀ a ∈ encodeOptStr o, 32 ≤ a.toNat := by
  intro a ha
  match o with
  | none =>
    rw [encodeOptStr] at ha
    fin_cases ha <;> decide
  | some s => exact quoteStr_printable s a ha

theorem encodeUsage_printable (u : Usage) : ∀ a ∈ encodeUsage u, 32 ≤ a.toNat := by
  have hk1 : ∀ a ∈ keyChars "prompt_tokens", 32 ≤ a.toNat := by decide
  have hk2 : ∀ a ∈ keyChars "completion_tokens", 32 ≤ a.toNat := by decide
  have hk3 : ∀ a ∈ keyChars "total_tokens", 32 ≤ a.toNat := by decide
  intro a ha
  rw [encodeUsage] at ha
  simp only [List.mem_cons, List.mem_append, List.not_mem_nil, or_false] at ha
  casesm* _ ∨ _
  all_goals first
    | (subst_vars; decide)
    | exact hk1 _ (by assumption)
    | exact hk2 _ (by assumption)
    | exact hk3 _ (by assumption)
    | exact encodeOptNat_printable _ _ (by assumption)

theorem encodeOptUsage_printable (o : Option Usage) : ∀ a ∈ encodeOptUsage o, 32 ≤ a.toNat := by
  intro a ha
  match o with
  | none =>
    rw [encodeOptUsage] at ha
    fin_cases ha <;> decide
  | some u => exact encodeUsage_printable u a ha

theorem encodeRecord_printable (r : SessionRecord) : ∀ a ∈ encodeRecord r, 32 ≤ a.toNat := by
  have hk1 : ∀ a ∈ keyChars "timestamp_ms", 32 ≤ a.toNat := by decide
  have hk2 : ∀ a ∈ keyChars "role", 32 ≤ a.toNat := by decide
  have hk3 : ∀ a ∈ keyChars "content", 32 ≤ a.toNat := by decide
  have hk4 : ∀ a ∈ keyChars "model", 32 ≤ a.toNat := by decide
  have hk5 : ∀ a ∈ keyChars "usage", 32 ≤ a.toNat := by decide
  intro a ha
  rw [encodeRecord] at ha
  simp only [List.mem_cons, List.mem_append, List.not_mem_nil, or_false] at ha
  casesm* _ ∨ _
  all_goals first
    | (subst_vars; decide)
    | exact hk1 _ (by assumption)
    | exact hk2 _ (by assumption)
    | exact hk3 _ (by assumption)
    | exact hk4 _ (by assumption)
    | exact hk5 _ (by assumption)
    | exact intToChars_printable _ _ (by assumption)
    | exact quoteStr_printable _ _ (by assumption)
    | exact encodeOptStr_printable _ _ (by assumption)
    | exact encodeOptUsage_printable _ _ (by assumption)

theorem mem_of_getLast?_eq (l : List Char) (a : Char) (h : l.getLast? = some a) :
    a ∈ l := by
  have hd := List.dropLast_append_getLast? a (show a ∈ l.getLast? by rw [h]; rfl)
  rw [← hd]
  exact List.mem_append_right _ (by simp)

theorem encodeRecord_no_nl (r : SessionRecord) : '\n' ∉ encodeRecord r := by
  intro h
  have := encodeRecord_printable r '\n' h
  rw [show ('\n' : Char).toNat = 10 from rfl] at this
  omega

theorem stripTrailCR_encodeRecord (r : SessionRecord) :
    stripTrailCR (encodeRecord r) = encodeRecord r := by
  rw [stripTrailCR, if_neg]
  intro hc
  have := encodeRecord_printable r '\x0d' (mem_of_getLast?_eq _ _ hc)
  rw [show ('\x0d' : Char).toNat = 13 from rfl] at this
  omega

theorem dropWhile_concat_ne_nil (p : Char → Bool) (l : List Char) (x : Char)
    (hx : p x = false) : List.dropWhile p (l ++ [x]) ≠ [] := by
  induction l with
  | nil =>
    rw [List.nil_append, List.dropWhile_cons, hx]
    simp
  | cons c t ih =>
    rw [List.cons_append, List.dropWhile_cons]
    by_cases hc : p c
    · rw [hc]
      simpa using ih
    · simp only [hc]
      simp

theorem trimChars_cons_ne_nil (x : Char) (t : List Char) (hx : isWsChar x = false) :
    trimChars (x :: t) ≠ [] := by
  rw [trimChars, List.dropWhile_cons, hx]
  simp only [Bool.false_eq_true, if_false, List.reverse_cons]
  intro hc
  exact dropWhile_concat_ne_nil isWsChar t.reverse x hx (by simpa using hc)

theorem trimChars_encodeRecord_ne_nil (r : SessionRecord) :
    trimChars (encodeRecord r) ≠ [] := by
  rw [encodeRecord]
  exact trimChars_cons_ne_nil '{' _ (by decide)

theorem rustLinesAux_nil_nil : rustLinesAux [] [] = [] := by
  rw [rustLinesAux, if_pos rfl]

theorem rustLinesAux_nl (cs acc : List Char) :
    rustLinesAux ('\n' :: cs) acc = acc.reverse :: rustLinesAux cs [] := by
  rw [rustLinesAux, if_pos rfl]

theorem rustLinesAux_other (x : Char) (cs acc : List Char) (hx : ¬ x = '\n') :
    rustLinesAux (x :: cs) acc = rustLinesAux cs (x :: acc) := by
  rw [rustLinesAux, if_neg hx]

theorem rustLinesAux_append_of_ends_nl (c : List Char) :
    c.getLast? = some '\n' →
    ∀ t acc, rustLinesAux (c ++ t) acc = rustLinesAux c acc ++ rustLinesAux t [] := by
  induction c with
  | nil => intro hc; simp at hc
  | cons x xs ih =>
    intro hc t acc
    cases xs with
    | nil =>
      have hx : x = '\n' := by simpa using hc
      subst hx
      rw [List.cons_append, List.nil_append, rustLinesAux_nl, rustLinesAux_nl,
        rustLinesAux_nil_nil]
      rfl
    | cons y ys =>
      have hc2 : (y :: ys).getLast? = some '\n' := by
        rwa [List.getLast?_cons_cons] at hc
      by_cases hx : x = '\n'
      · subst hx
        rw [List.cons_append, rustLinesAux_nl, rustLinesAux_nl, ih hc2 t []]
        rfl
      · rw [List.cons_append, rustLinesAux_other x _ _ hx,
          rustLinesAux_other x _ _ hx, ih hc2 t (x :: acc)]

theorem rustLinesAux_line (e : List Char) :
    '\n' ∉ e → ∀ acc, rustLinesAux (e ++ ['\n']) acc = [acc.reverse ++ e] := by
  induction e with
  | nil =>
    intro _ acc
    rw [List.nil_append, rustLinesAux_nl, rustLinesAux_nil_nil]
    simp
  | cons x e ih =>
    intro he acc
    have hx : ¬ x = '\n' := fun h => he (h ▸ List.mem_cons_self x e)
    rw [List.cons_append, rustLinesAux_other x _ _ hx]
    rw [ih (fun h => he (List.mem_cons_of_mem x h)) (x :: acc)]
    simp

theorem rustLines_nil : rustLines [] = [] := by
  rw [rustLines, rustLinesAux_nil_nil]
  rfl

theorem rustLines_append_line (c e : List Char)
    (hok : c = [] ∨ c.getLast? = some '\n') (he : '\n' ∉ e) :
    rustLines (c ++ (e ++ ['\n'])) = rustLines c ++ [stripTrailCR e] := by
  rcases hok with rfl | hc
  · rw [List.nil_append, rustLines, rustLinesAux_line e he [], rustLines_nil]
    simp
  · rw [rustLines, rustLinesAux_append_of_ends_nl c hc (e ++ ['\n']) []]
    rw [rustLinesAux_line e he []]
    rw [List.map_append, rustLines]
    simp

theorem append_record_self (st : Store) (name : String) (r : SessionRecord) :
    append_record st name r name =
      some (((st name).getD []) ++ (encodeRecord r ++ ['\n'])) := by
  simp [append_record]

theorem load_some (st : Store) (name : String) (c : List Char)
    (h : st name = some c) :
    load_session_history st name = (rustLines c).filterMap
      (fun line => if trimChars line = [] then none else decodeRecord line) := by
  rw [load_session_history, h]

theorem load_none (st : Store) (name : String) (h : st name = none) :
    load_session_history st name = [] := by
  rw [load_session_history, h]

theorem load_append (st : Store) (name : String) (r : SessionRecord)
    (hinv : contentOk (st name)) :
    load_session_history (append_record st name r) name =
      load_session_history st name ++ [r] := by
  have hline : (fun line => if trimChars line = [] then none
      else decodeRecord line) (encodeRecord r) = some r := by
    simp only [if_neg (trimChars_encodeRecord_ne_nil r)]
    exact decodeRecord_encodeRecord r
  cases hst : st name with
  | none =>
    rw [load_some (append_record st name r) name
      (((st name).getD []) ++ (encodeRecord r ++ ['\n']))
      (append_record_self st name r)]
    rw [hst]
    rw [show (Option.getD (none : Option (List Char)) []) = [] from rfl]
    rw [rustLines_append_line [] (encodeRecord r) (Or.inl rfl) (encodeRecord_no_nl r)]
    rw [stripTrailCR_encodeRecord, rustLines_nil, List.nil_append]
    rw [load_none st name hst, List.nil_append]
    simp only [List.filterMap_cons, List.filterMap_nil, hline]
  | some content =>
    rw [load_some (append_record st name r) name
      (((st name).getD []) ++ (encodeRecord r ++ ['\n']))
      (append_record_self st name r)]
    rw [hst]
    rw [show (Option.getD (some content) []) = content from rfl]
    rw [hst] at hinv
    have hok : content = [] ∨ content.getLast? = some '\n' := hinv
    rw [rustLines_append_line content (encodeRecord r) hok (encodeRecord_no_nl r)]
    rw [stripTrailCR_encodeRecord]
    rw [List.filterMap_append, load_some st name content hst]
    simp only [List.filterMap_cons, List.filterMap_nil, hline]

theorem contentOk_append (st : Store) (name : String) (r : SessionRecord) :
    contentOk (append_record st name r name) := by
  rw [append_record_self st name r]
  show ((st name).getD []) ++ (encodeRecord r ++ ['\n']) = [] ∨
    (((st name).getD []) ++ (encodeRecord r ++ ['\n'])).getLast? = some '\n'
  right
  rw [show ((st name).getD []) ++ (encodeRecord r ++ ['\n']) =
    (((st name).getD []) ++ encodeRecord r) ++ ['\n'] from by simp]
  exact List.getLast?_concat _

/-- Claim C7: appending a record to a conversation and loading the
history yields a list ending with exactly that record; appending two
records to any (well-formed or absent) conversation file and re-loading
yields exactly two more records than loading before the appends. -/
theorem c7_append_load_roundtrip (st : Store) (name : String)
    (r r1 r2 : SessionRecord) (hinv : contentOk (st name)) :
    (load_session_history (append_record st name r) name).getLast? = some r ∧
      (load_session_history
          (append_record (append_record st name r1) name r2) name).length =
        (load_session_history st name).length + 2 := by
  constructor
  · rw [load_append st name r hinv]
    exact List.getLast?_concat _
  · rw [load_append _ _ r2 (contentOk_append st name r1)]
    rw [load_append st name r1 hinv]
    simp

/-- Witness for C7: an initially absent conversation file, with records
exercising negative timestamps, optional fields and escaped string
content. -/
theorem c7_witness :
    (load_session_history (append_record (fun _ => none) "chat"
        (SessionRecord.mk 5 "user" "hi" none none)) "chat").getLast? =
      some (SessionRecord.mk 5 "user" "hi" none none) ∧
      (load_session_history
          (append_record (append_record (fun _ => none) "chat"
            (SessionRecord.mk 6 "user" "q\"x\n" (some "m")
              (some (Usage.mk (some 1) none (some 3)))))
          "chat" (SessionRecord.mk (-7) "assistant" "ok" none none)) "chat").length =
        (load_session_history (fun _ => none) "chat").length + 2 :=
  c7_append_load_roundtrip (fun _ => none) "chat"
    (SessionRecord.mk 5 "user" "hi" none none)
    (SessionRecord.mk 6 "user" "q\"x\n" (some "m")
      (some (Usage.mk (some 1) none (some 3))))
    (SessionRecord.mk (-7) "assistant" "ok" none none) trivial

end SwAssist
